import Mathlib

/-!
Verification of the tableHandler NVDA add-on (accessolutions/tableHandler-nvda).

This file gives a shallow embedding, in Lean 4, of the parts of the add-on
that the specification's claims are about:

* the per-table configuration record `TableCfg` and the user scripts
  `script_setColumnHeader`, `script_setRowHeader`, `script_toggleMarkedColumn`
  and `script_toggleMarkedRow` of `TableManager`
  (src `addon/globalPlugins/tableHandler/behaviors.py`);
* the handler-chain dispatcher `TableHandlerDispatcher`
  (src `addon/globalPlugins/tableHandler/__init__.py`);
* the persisted-configuration store `TableConfig` (`remove`, `save`,
  `restoreIntKeys`) of the same module;
* the incremental-movement helper `TableManager._tableMovementScriptHelper`
  (`behaviors.py`);
* the braille window packing algorithm `RowRegion.getColumns` (`behaviors.py`).

Python dictionaries are embedded as association lists with unique keys in
insertion order, Python `None`/`True`/`False` announce flags as `Option Bool`,
Python exceptions as `Except` error values, and Python machine-independent
integers as `Int` (or `Nat` where the source guarantees non-negativity).
-/

/-! ### Python dictionary primitives

The marking maps (`markedRowNumbers`, `markedColumnNumbers`) are Python
dicts keyed by 1-based row/column numbers whose values are the announce
flag `None` / `True` / `False`.  A dict is embedded as an association list
in insertion order; `dictSet` mirrors `d[k] = v` (update in place, else
append), `dictPop` mirrors `d.pop(k, None)` and `dictGet` mirrors
`k in d` / `d[k]`. -/

def dictGet (m : List (Nat × Option Bool)) (k : Nat) : Option (Option Bool) :=
  match m with
  | [] => none
  | (k', v) :: rest => if k' = k then some v else dictGet rest k

def dictSet (m : List (Nat × Option Bool)) (k : Nat) (v : Option Bool) :
    List (Nat × Option Bool) :=
  match m with
  | [] => [(k, v)]
  | (k', v') :: rest => if k' = k then (k', v) :: rest else (k', v') :: dictSet rest k v

def dictPop (m : List (Nat × Option Bool)) (k : Nat) : List (Nat × Option Bool) :=
  match m with
  | [] => []
  | (k', v') :: rest => if k' = k then rest else (k', v') :: dictPop rest k

/-! ### Header settings

`columnHeaderRowNumber` / `rowHeaderColumnNumber` hold Python `None`
(unset), `False` (explicitly disabled) or an `int` row/column number. -/

inductive HeaderSetting
  | unset                -- Python None
  | disabled             -- Python False
  | at_ (n : Nat)        -- Python int row/column number
  deriving DecidableEq, Repr

/-- Python `==` between the current (truthy, hence non-zero) row/column
number and a header setting.  Note `False == 0` holds in Python, so a
disabled header compares equal to number `0` — which the scripts never
pass, as they first check `if not num`. -/
def pyEqNum (num : Nat) : HeaderSetting → Bool
  | .unset => false
  | .disabled => num = 0
  | .at_ n => num = n

/-- `dict.pop(headerNum, None)` where `headerNum` is a header setting:
popping `None` finds no key (keys are ints), popping `False` pops key `0`
(Python `False` hashes like `0`), popping an int pops that key. -/
def dictPopHeader (m : List (Nat × Option Bool)) : HeaderSetting → List (Nat × Option Bool)
  | .unset => m
  | .disabled => dictPop m 0
  | .at_ n => dictPop m n

/-! ### The table configuration

Leaf layer of a `TableConfig` for the fields touched by the header and
marking scripts.  Reads of other config names fall through the layer chain
to `TableConfig.DEFAULTS`; a name declared in no layer yields the
`__getitem__` default `None` (see `CfgKey.rowHeaderRowNumber` below). -/

structure TableCfg where
  columnHeaderRowNumber : HeaderSetting
  rowHeaderColumnNumber : HeaderSetting
  markedRowNumbers : List (Nat × Option Bool)
  markedColumnNumbers : List (Nat × Option Bool)
  deriving DecidableEq, Repr

/-- The config names read by the scripts under study.
`rowHeaderRowNumber` is the name read by `script_toggleMarkedRow`
(behaviors.py line 1616); no such key exists in `TableConfig.DEFAULTS`. -/
inductive CfgKey
  | columnHeaderRowNumber
  | rowHeaderColumnNumber
  | rowHeaderRowNumber
  deriving DecidableEq, Repr

/-- `TableConfig.__getitem__`: defined fields read their value, any other
name returns the default `None` (embedded as `HeaderSetting.unset`). -/
def cfgHeaderLookup (cfg : TableCfg) : CfgKey → HeaderSetting
  | .columnHeaderRowNumber => cfg.columnHeaderRowNumber
  | .rowHeaderColumnNumber => cfg.rowHeaderColumnNumber
  | .rowHeaderRowNumber => .unset

/-! ### Messages

The user-facing messages emitted by the scripts, as an enumeration. -/

inductive Msg
  | notInTableCell
  | columnHeaderResetToDefault
  | columnHeaderDisabled
  | rowSetAsColumnHeader
  | rowHeaderResetToDefault
  | rowHeaderDisabled
  | columnSetAsRowHeader
  | hintColumnIsRowHeader
  | hintRowIsColumnHeader
  | columnMarkedWithAnnounce
  | columnMarkedWithoutAnnounce
  | columnUnmarked
  | rowMarkedWithAnnounce
  | rowMarkedWithoutAnnounce
  | rowUnmarked
  deriving DecidableEq, Repr

/-! ### Header assignment scripts

`TableManager.script_setColumnHeader` (behaviors.py 1511-1534) and
`script_setRowHeader` (1540-1563).  `curNum` is the current cell's
row (resp. column) number — the `if not cell` focus guard is outside this
embedding, a current cell is assumed.  `repeated` embeds
`getLastScriptUntimedRepeatCount() > 0`. -/

def script_setColumnHeader (cfg : TableCfg) (curNum : Nat) (repeated : Bool) :
    TableCfg × Msg :=
  let headerNum := cfgHeaderLookup cfg .columnHeaderRowNumber
  let marked := dictPopHeader cfg.markedRowNumbers headerNum
  if pyEqNum curNum headerNum then
    ({ cfg with columnHeaderRowNumber := .unset, markedRowNumbers := marked },
     .columnHeaderResetToDefault)
  else if repeated ∧ headerNum = .unset then
    ({ cfg with columnHeaderRowNumber := .disabled, markedRowNumbers := marked },
     .columnHeaderDisabled)
  else
    ({ cfg with
        columnHeaderRowNumber := .at_ curNum
        markedRowNumbers := dictSet marked curNum none },
     .rowSetAsColumnHeader)

def script_setRowHeader (cfg : TableCfg) (curNum : Nat) (repeated : Bool) :
    TableCfg × Msg :=
  let headerNum := cfgHeaderLookup cfg .rowHeaderColumnNumber
  let marked := dictPopHeader cfg.markedColumnNumbers headerNum
  if pyEqNum curNum headerNum then
    ({ cfg with rowHeaderColumnNumber := .unset, markedColumnNumbers := marked },
     .rowHeaderResetToDefault)
  else if repeated ∧ headerNum = .unset then
    ({ cfg with rowHeaderColumnNumber := .disabled, markedColumnNumbers := marked },
     .rowHeaderDisabled)
  else
    ({ cfg with
        rowHeaderColumnNumber := .at_ curNum
        markedColumnNumbers := dictSet marked curNum none },
     .columnSetAsRowHeader)

/-! ### Marking toggle scripts

`TableManager.script_toggleMarkedColumn` (behaviors.py 1569-1605) and
`script_toggleMarkedRow` (1611-1647).  Each mutation is followed by
`cfg.save()`; the state carries the persisted copy of the marking map so
that persistence can be stated. -/

structure MarkState where
  cfg : TableCfg
  persistedRowMarks : List (Nat × Option Bool)
  persistedColumnMarks : List (Nat × Option Bool)
  deriving DecidableEq, Repr

def script_toggleMarkedColumn (st : MarkState) (num : Nat) : MarkState × Msg :=
  if num = 0 then (st, .notInTableCell)
  else if pyEqNum num (cfgHeaderLookup st.cfg .rowHeaderColumnNumber) then
    (st, .hintColumnIsRowHeader)
  else
    let marked := st.cfg.markedColumnNumbers
    match dictGet marked num with
    | some announce =>
      if announce = some true then
        let marked := dictSet marked num (some false)
        ({ st with
            cfg := { st.cfg with markedColumnNumbers := marked }
            persistedColumnMarks := marked }, .columnMarkedWithoutAnnounce)
      else
        let marked := dictPop marked num
        ({ st with
            cfg := { st.cfg with markedColumnNumbers := marked }
            persistedColumnMarks := marked }, .columnUnmarked)
    | none =>
      let marked := dictSet marked num (some true)
      ({ st with
          cfg := { st.cfg with markedColumnNumbers := marked }
          persistedColumnMarks := marked }, .columnMarkedWithAnnounce)

def script_toggleMarkedRow (st : MarkState) (num : Nat) : MarkState × Msg :=
  if num = 0 then (st, .notInTableCell)
  else if pyEqNum num (cfgHeaderLookup st.cfg .rowHeaderRowNumber) then
    (st, .hintRowIsColumnHeader)
  else
    let marked := st.cfg.markedRowNumbers
    match dictGet marked num with
    | some announce =>
      if announce = some true then
        let marked := dictSet marked num (some false)
        ({ st with
            cfg := { st.cfg with markedRowNumbers := marked }
            persistedRowMarks := marked }, .rowMarkedWithoutAnnounce)
      else
        let marked := dictPop marked num
        ({ st with
            cfg := { st.cfg with markedRowNumbers := marked }
            persistedRowMarks := marked }, .rowUnmarked)
    | none =>
      let marked := dictSet marked num (some true)
      ({ st with
          cfg := { st.cfg with markedRowNumbers := marked }
          persistedRowMarks := marked }, .rowMarkedWithAnnounce)

/-! ### Dictionary lemmas -/

theorem dictGet_dictSet_self (m : List (Nat × Option Bool)) (k : Nat) (v : Option Bool) :
    dictGet (dictSet m k v) k = some v := by
  induction m with
  | nil => simp [dictGet, dictSet]
  | cons head tail ih =>
    obtain ⟨k', v'⟩ := head
    by_cases h : k' = k <;> simp [dictGet, dictSet, h, ih]

theorem dictGet_dictSet_ne (m : List (Nat × Option Bool)) (k k' : Nat) (v : Option Bool)
    (h : k ≠ k') : dictGet (dictSet m k v) k' = dictGet m k' := by
  induction m with
  | nil =>
    have : ¬ k = k' := h
    simp [dictGet, dictSet, this]
  | cons head tail ih =>
    obtain ⟨k₀, v₀⟩ := head
    by_cases h₀ : k₀ = k
    · subst h₀
      have : ¬ k₀ = k' := h
      simp [dictGet, dictSet, this]
    · simp [dictGet, dictSet, h₀, ih]

theorem dictPop_dictSet_of_get_none (m : List (Nat × Option Bool)) (k : Nat) (v : Option Bool)
    (h : dictGet m k = none) : dictPop (dictSet m k v) k = m := by
  induction m with
  | nil => simp [dictGet, dictSet, dictPop]
  | cons head tail ih =>
    obtain ⟨k₀, v₀⟩ := head
    by_cases h₀ : k₀ = k
    · subst h₀; simp [dictGet] at h
    · simp [dictGet, h₀] at h
      simp [dictSet, dictPop, h₀, ih h]

theorem dictSet_dictSet_self (m : List (Nat × Option Bool)) (k : Nat) (v w : Option Bool) :
    dictSet (dictSet m k v) k w = dictSet m k w := by
  induction m with
  | nil => simp [dictSet]
  | cons head tail ih =>
    obtain ⟨k₀, v₀⟩ := head
    by_cases h₀ : k₀ = k <;> simp [dictSet, h₀, ih]

theorem dictGet_eq_none_of_not_mem (m : List (Nat × Option Bool)) (k : Nat)
    (h : k ∉ m.map Prod.fst) : dictGet m k = none := by
  induction m with
  | nil => simp [dictGet]
  | cons head tail ih =>
    obtain ⟨k₀, v₀⟩ := head
    simp only [List.map_cons, List.mem_cons] at h
    push_neg at h
    have : ¬ k₀ = k := fun hh => h.1 hh.symm
    simp [dictGet, this, ih h.2]

theorem dictGet_dictPop_self (m : List (Nat × Option Bool)) (k : Nat)
    (h : (m.map Prod.fst).Nodup) : dictGet (dictPop m k) k = none := by
  induction m with
  | nil => simp [dictGet, dictPop]
  | cons head tail ih =>
    obtain ⟨k₀, v₀⟩ := head
    simp only [List.map_cons, List.nodup_cons] at h
    by_cases h₀ : k₀ = k
    · subst h₀
      simp only [dictPop, if_pos rfl]
      exact dictGet_eq_none_of_not_mem tail k₀ h.1
    · simp [dictPop, h₀, dictGet, ih h.2]

/-! ### Claim C4 — setColumnHeader double-press and tri-state cycle -/

/-- C4, counterexample.  The claim asserts that two successive presses of
`setColumnHeader` on the same row return *every* config entry, including
`markedRowNumbers`, to its value before the first press.  Starting from an
unset header with row 2 already marked-with-announce, the first press
overwrites that entry with the announce value `None` and the second press
pops it, so `markedRowNumbers` ends empty instead of `{2: True}`. -/
theorem setColumnHeader_double_press_counterexample :
    (script_setColumnHeader
        (script_setColumnHeader
          ⟨.unset, .unset, [(2, some true)], []⟩ 2 false).1 2 true).1.markedRowNumbers
      ≠ (⟨.unset, .unset, [(2, some true)], []⟩ : TableCfg).markedRowNumbers := by
  decide

/-- C4, amended: starting from an unset column header, if the current row
is *not already marked*, a press of `setColumnHeader` assigns it and a
second press returns the whole config to its pre-assignment state; and the
tri-state cycle closes: a further (repeated) press while unset disables
the header, and a press while disabled assigns the current row again. -/
theorem setColumnHeader_double_press_and_tristate (cfg : TableCfg) (cur : Nat)
    (hcur : cur ≠ 0)
    (hunset : cfg.columnHeaderRowNumber = .unset)
    (hnotmarked : dictGet cfg.markedRowNumbers cur = none) :
    (script_setColumnHeader cfg cur false).1.columnHeaderRowNumber = .at_ cur
    ∧ (script_setColumnHeader (script_setColumnHeader cfg cur false).1 cur true).1 = cfg
    ∧ (script_setColumnHeader (script_setColumnHeader
        (script_setColumnHeader cfg cur false).1 cur true).1 cur
          true).1.columnHeaderRowNumber = .disabled
    ∧ (script_setColumnHeader (script_setColumnHeader (script_setColumnHeader
        (script_setColumnHeader cfg cur false).1 cur true).1 cur true).1 cur
          true).1.columnHeaderRowNumber = .at_ cur := by
  obtain ⟨h₁, h₂, m₁, m₂⟩ := cfg
  simp only at hunset hnotmarked
  subst hunset
  have e₁ : script_setColumnHeader ⟨.unset, h₂, m₁, m₂⟩ cur false
      = (⟨.at_ cur, h₂, dictSet m₁ cur none, m₂⟩, .rowSetAsColumnHeader) := by
    simp [script_setColumnHeader, cfgHeaderLookup, pyEqNum, dictPopHeader]
  have e₂ : script_setColumnHeader ⟨.at_ cur, h₂, dictSet m₁ cur none, m₂⟩ cur true
      = (⟨.unset, h₂, m₁, m₂⟩, .columnHeaderResetToDefault) := by
    simp [script_setColumnHeader, cfgHeaderLookup, pyEqNum, dictPopHeader,
      dictPop_dictSet_of_get_none m₁ cur none hnotmarked]
  have e₃ : script_setColumnHeader ⟨.unset, h₂, m₁, m₂⟩ cur true
      = (⟨.disabled, h₂, m₁, m₂⟩, .columnHeaderDisabled) := by
    simp [script_setColumnHeader, cfgHeaderLookup, pyEqNum, dictPopHeader]
  have e₄ : (script_setColumnHeader ⟨.disabled, h₂, m₁, m₂⟩ cur
      true).1.columnHeaderRowNumber = .at_ cur := by
    simp [script_setColumnHeader, cfgHeaderLookup, pyEqNum, dictPopHeader, hcur]
  refine ⟨by rw [e₁], by rw [e₁, e₂], by rw [e₁, e₂, e₃], by rw [e₁, e₂, e₃]; exact e₄⟩

/-- C4, witness. -/
theorem setColumnHeader_double_press_and_tristate_witness :
    (script_setColumnHeader (⟨.unset, .unset, [], []⟩ : TableCfg) 2
        false).1.columnHeaderRowNumber = .at_ 2
    ∧ (script_setColumnHeader (script_setColumnHeader
        (⟨.unset, .unset, [], []⟩ : TableCfg) 2 false).1 2 true).1
      = (⟨.unset, .unset, [], []⟩ : TableCfg)
    ∧ (script_setColumnHeader (script_setColumnHeader (script_setColumnHeader
        (⟨.unset, .unset, [], []⟩ : TableCfg) 2 false).1 2 true).1 2
          true).1.columnHeaderRowNumber = .disabled
    ∧ (script_setColumnHeader (script_setColumnHeader (script_setColumnHeader
        (script_setColumnHeader (⟨.unset, .unset, [], []⟩ : TableCfg) 2 false).1 2
          true).1 2 true).1 2 true).1.columnHeaderRowNumber = .at_ 2 :=
  setColumnHeader_double_press_and_tristate ⟨.unset, .unset, [], []⟩ 2
    (by decide) (by decide) (by decide)

/-! ### Claim C6 — three-state marking cycle -/

/-- C6: for a column that is not the configured row-header column and is
currently unmarked, three successive `toggleMarkedColumn` presses cycle
its entry through absent → present-with-announce-True →
present-with-announce-False → absent, persisting the config after each
transition; and likewise for `toggleMarkedRow` on `markedRowNumbers`
(there with the current row not the configured column-header row). -/
theorem toggleMarked_three_state_cycle (st : MarkState) (num : Nat)
    (hnum : num ≠ 0)
    (hcolguard : st.cfg.rowHeaderColumnNumber ≠ .at_ num)
    (hrowguard : st.cfg.columnHeaderRowNumber ≠ .at_ num)
    (hcol₀ : dictGet st.cfg.markedColumnNumbers num = none)
    (hrow₀ : dictGet st.cfg.markedRowNumbers num = none) :
    (let t1 := script_toggleMarkedColumn st num
     let t2 := script_toggleMarkedColumn t1.1 num
     let t3 := script_toggleMarkedColumn t2.1 num
     dictGet t1.1.cfg.markedColumnNumbers num = some (some true)
     ∧ t1.1.persistedColumnMarks = t1.1.cfg.markedColumnNumbers
     ∧ t1.2 = .columnMarkedWithAnnounce
     ∧ dictGet t2.1.cfg.markedColumnNumbers num = some (some false)
     ∧ t2.1.persistedColumnMarks = t2.1.cfg.markedColumnNumbers
     ∧ t2.2 = .columnMarkedWithoutAnnounce
     ∧ dictGet t3.1.cfg.markedColumnNumbers num = none
     ∧ t3.1.cfg.markedColumnNumbers = st.cfg.markedColumnNumbers
     ∧ t3.1.persistedColumnMarks = t3.1.cfg.markedColumnNumbers
     ∧ t3.2 = .columnUnmarked)
    ∧ (let u1 := script_toggleMarkedRow st num
       let u2 := script_toggleMarkedRow u1.1 num
       let u3 := script_toggleMarkedRow u2.1 num
       dictGet u1.1.cfg.markedRowNumbers num = some (some true)
       ∧ u1.1.persistedRowMarks = u1.1.cfg.markedRowNumbers
       ∧ u1.2 = .rowMarkedWithAnnounce
       ∧ dictGet u2.1.cfg.markedRowNumbers num = some (some false)
       ∧ u2.1.persistedRowMarks = u2.1.cfg.markedRowNumbers
       ∧ u2.2 = .rowMarkedWithoutAnnounce
       ∧ dictGet u3.1.cfg.markedRowNumbers num = none
       ∧ u3.1.cfg.markedRowNumbers = st.cfg.markedRowNumbers
       ∧ u3.1.persistedRowMarks = u3.1.cfg.markedRowNumbers
       ∧ u3.2 = .rowUnmarked) := by
  obtain ⟨⟨ch, rh, mr, mc⟩, pr, pc⟩ := st
  simp only at hcolguard hrowguard hcol₀ hrow₀
  have hpycol : pyEqNum num rh = false := by
    cases rh with
    | unset => simp [pyEqNum]
    | disabled => simp [pyEqNum, hnum]
    | at_ n =>
      have : num ≠ n := fun he => hcolguard (by rw [he])
      simp [pyEqNum, this]
  constructor
  · have e1 : script_toggleMarkedColumn ⟨⟨ch, rh, mr, mc⟩, pr, pc⟩ num
        = (⟨⟨ch, rh, mr, dictSet mc num (some true)⟩, pr, dictSet mc num (some true)⟩,
           .columnMarkedWithAnnounce) := by
      simp [script_toggleMarkedColumn, hnum, cfgHeaderLookup, hpycol, hcol₀]
    have e2 : script_toggleMarkedColumn
          ⟨⟨ch, rh, mr, dictSet mc num (some true)⟩, pr, dictSet mc num (some true)⟩ num
        = (⟨⟨ch, rh, mr, dictSet mc num (some false)⟩, pr, dictSet mc num (some false)⟩,
           .columnMarkedWithoutAnnounce) := by
      simp [script_toggleMarkedColumn, hnum, cfgHeaderLookup, hpycol,
        dictGet_dictSet_self, dictSet_dictSet_self]
    have e3 : script_toggleMarkedColumn
          ⟨⟨ch, rh, mr, dictSet mc num (some false)⟩, pr, dictSet mc num (some false)⟩ num
        = (⟨⟨ch, rh, mr, mc⟩, pr, mc⟩, .columnUnmarked) := by
      simp [script_toggleMarkedColumn, hnum, cfgHeaderLookup, hpycol,
        dictGet_dictSet_self, dictPop_dictSet_of_get_none mc num (some false) hcol₀]
    simp only [e1, e2, e3]
    simp [dictGet_dictSet_self, hcol₀]
  · have e1 : script_toggleMarkedRow ⟨⟨ch, rh, mr, mc⟩, pr, pc⟩ num
        = (⟨⟨ch, rh, dictSet mr num (some true), mc⟩, dictSet mr num (some true), pc⟩,
           .rowMarkedWithAnnounce) := by
      simp [script_toggleMarkedRow, hnum, cfgHeaderLookup, pyEqNum, hrow₀]
    have e2 : script_toggleMarkedRow
          ⟨⟨ch, rh, dictSet mr num (some true), mc⟩, dictSet mr num (some true), pc⟩ num
        = (⟨⟨ch, rh, dictSet mr num (some false), mc⟩, dictSet mr num (some false), pc⟩,
           .rowMarkedWithoutAnnounce) := by
      simp [script_toggleMarkedRow, hnum, cfgHeaderLookup, pyEqNum,
        dictGet_dictSet_self, dictSet_dictSet_self]
    have e3 : script_toggleMarkedRow
          ⟨⟨ch, rh, dictSet mr num (some false), mc⟩, dictSet mr num (some false), pc⟩ num
        = (⟨⟨ch, rh, mr, mc⟩, mr, pc⟩, .rowUnmarked) := by
      simp [script_toggleMarkedRow, hnum, cfgHeaderLookup, pyEqNum,
        dictGet_dictSet_self, dictPop_dictSet_of_get_none mr num (some false) hrow₀]
    simp only [e1, e2, e3]
    simp [dictGet_dictSet_self, hrow₀]

/-- C6, witness. -/
theorem toggleMarked_three_state_cycle_witness :
    (let st : MarkState := ⟨⟨.unset, .unset, [], []⟩, [], []⟩
     let t1 := script_toggleMarkedColumn st 3
     dictGet t1.1.cfg.markedColumnNumbers 3 = some (some true)) :=
  (toggleMarked_three_state_cycle ⟨⟨.unset, .unset, [], []⟩, [], []⟩ 3
    (by decide) (by decide) (by decide) (by decide) (by decide)).1.1

/-! ### Claim C7 — marking a header row/column -/

/-- C7: the column half behaves as claimed — when the current column is the
configured row-header column, `toggleMarkedColumn` leaves the config
untouched and reports the hint — but the row half does not:
`script_toggleMarkedRow` reads the config name `rowHeaderRowNumber`
(behaviors.py line 1616), which exists in no config layer and therefore
always reads `None`, instead of the intended `columnHeaderRowNumber`, so
the guard never fires.  With `columnHeaderRowNumber = 2` and the current
row 2, the row gets marked with announce instead of the hint. -/
theorem toggleMarkedRow_header_guard_dead :
    (script_toggleMarkedColumn ⟨⟨.unset, .at_ 3, [], []⟩, [], []⟩ 3
      = (⟨⟨.unset, .at_ 3, [], []⟩, [], []⟩, .hintColumnIsRowHeader))
    ∧ (script_toggleMarkedRow ⟨⟨.at_ 2, .unset, [], []⟩, [], []⟩ 2
      = (⟨⟨.at_ 2, .unset, [(2, some true)], []⟩, [(2, some true)], []⟩,
         .rowMarkedWithAnnounce))
    ∧ (script_toggleMarkedRow ⟨⟨.at_ 2, .unset, [], []⟩, [], []⟩ 2).2
      ≠ .hintRowIsColumnHeader := by
  refine ⟨by decide, by decide, by decide⟩

/-! ### Claim C10 — header assignment is not frame-preserving on markings -/

/-- C10: every invocation of `setColumnHeader` first pops the previously
assigned header row from `markedRowNumbers` (so that row's entry is gone
afterwards, keys being unique), and an invocation that assigns the current
row as column header inserts that row with announce value `None`;
symmetrically for `setRowHeader` on `markedColumnNumbers`. -/
theorem setHeader_updates_marked_maps (cfg : TableCfg) (cur : Nat) (rep : Bool) :
    (∀ h, cfg.columnHeaderRowNumber = .at_ h →
      (cfg.markedRowNumbers.map Prod.fst).Nodup →
      dictGet (script_setColumnHeader cfg cur rep).1.markedRowNumbers h = none)
    ∧ ((script_setColumnHeader cfg cur rep).1.columnHeaderRowNumber = .at_ cur →
      dictGet (script_setColumnHeader cfg cur rep).1.markedRowNumbers cur = some none)
    ∧ (∀ h, cfg.rowHeaderColumnNumber = .at_ h →
      (cfg.markedColumnNumbers.map Prod.fst).Nodup →
      dictGet (script_setRowHeader cfg cur rep).1.markedColumnNumbers h = none)
    ∧ ((script_setRowHeader cfg cur rep).1.rowHeaderColumnNumber = .at_ cur →
      dictGet (script_setRowHeader cfg cur rep).1.markedColumnNumbers cur = some none) := by
  obtain ⟨ch, rh, mr, mc⟩ := cfg
  refine ⟨?_, ?_, ?_, ?_⟩
  · intro h hh hnd
    simp only at hh
    subst hh
    simp only [script_setColumnHeader, cfgHeaderLookup, dictPopHeader]
    by_cases he : cur = h
    · subst he
      simp only [pyEqNum]
      rw [if_pos (by simp)]
      exact dictGet_dictPop_self mr cur hnd
    · have : pyEqNum cur (.at_ h) = false := by simp [pyEqNum, he]
      simp only [this, Bool.false_eq_true, if_false, if_neg (by simp : ¬ (rep = true ∧ (HeaderSetting.at_ h) = .unset))]
      rw [dictGet_dictSet_ne _ cur h none he]
      exact dictGet_dictPop_self mr h hnd
  · simp only [script_setColumnHeader, cfgHeaderLookup, dictPopHeader]
    by_cases h1 : pyEqNum cur ch = true
    · simp only [h1, if_true]
      intro hx
      exact absurd hx (by simp)
    · simp only [h1, if_false]
      by_cases h2 : rep = true ∧ ch = .unset
      · simp only [if_pos h2]
        intro hx
        exact absurd hx (by simp)
      · simp only [if_neg h2]
        intro _
        exact dictGet_dictSet_self _ cur none
  · intro h hh hnd
    simp only at hh
    subst hh
    simp only [script_setRowHeader, cfgHeaderLookup, dictPopHeader]
    by_cases he : cur = h
    · subst he
      simp only [pyEqNum]
      rw [if_pos (by simp)]
      exact dictGet_dictPop_self mc cur hnd
    · have : pyEqNum cur (.at_ h) = false := by simp [pyEqNum, he]
      simp only [this, Bool.false_eq_true, if_false, if_neg (by simp : ¬ (rep = true ∧ (HeaderSetting.at_ h) = .unset))]
      rw [dictGet_dictSet_ne _ cur h none he]
      exact dictGet_dictPop_self mc h hnd
  · simp only [script_setRowHeader, cfgHeaderLookup, dictPopHeader]
    by_cases h1 : pyEqNum cur rh = true
    · simp only [h1, if_true]
      intro hx
      exact absurd hx (by simp)
    · simp only [h1, if_false]
      by_cases h2 : rep = true ∧ rh = .unset
      · simp only [if_pos h2]
        intro hx
        exact absurd hx (by simp)
      · simp only [if_neg h2]
        intro _
        exact dictGet_dictSet_self _ cur none

/-- C10, witness. -/
theorem setHeader_updates_marked_maps_witness :
    dictGet (script_setColumnHeader
        (⟨.at_ 1, .unset, [(1, none)], []⟩ : TableCfg) 2 false).1.markedRowNumbers 1 = none
    ∧ dictGet (script_setColumnHeader
        (⟨.at_ 1, .unset, [(1, none)], []⟩ : TableCfg) 2 false).1.markedRowNumbers 2
      = some none := by
  have h := setHeader_updates_marked_maps ⟨.at_ 1, .unset, [(1, none)], []⟩ 2 false
  exact ⟨h.1 1 rfl (by decide), h.2.1 (by decide)⟩

/-! ### Claim C2 — handler chain dispatch

`TableHandlerDispatcher` (`__init__.py` 213-257).  `gen` yields the
candidate handler functions in order (running global plugins, the app
module, the web module, the tree interceptor, the object, and finally the
default `TableHandler`); `next` pulls the next handler and calls it,
passing itself as the `nextHandler` continuation, with **no** exception
handling around the call.  A handler either answers (returns without
calling the continuation), declines (returns `nextHandler()`), or raises.
The chain is embedded as the ordered list of these behaviours; a raised
exception propagates monadically since `next` never catches. -/

inductive Handler (α : Type)
  | declines            -- handler returns nextHandler(), deferring
  | throws              -- handler raises an exception
  | answers (a : α)     -- handler returns a result without deferring
  deriving DecidableEq, Repr

inductive DispatchError
  | handlerException    -- an exception raised by a handler, propagated uncaught
  | exhausted           -- `raise Exception("Handlers exausted")` in next()
  deriving DecidableEq, Repr

/-- `TableHandlerDispatcher.next`: take the next handler from the
generator and invoke it.  There is no try/except: a throwing handler
aborts the whole resolution. -/
def dispatch {α : Type} : List (Handler α) → Except DispatchError α
  | [] => .error .exhausted
  | .declines :: rest => dispatch rest
  | .throws :: _ => .error .handlerException
  | .answers a :: _ => .ok a

/-- C2, counterexample.  The claim requires the chain
[A declines, B throws, C answers X] to resolve to X with B's failure
merely logged; in the code B's exception propagates out of
`TableHandlerDispatcher.next` and C is never reached. -/
theorem dispatch_throwing_handler_counterexample :
    dispatch [Handler.declines, Handler.throws, Handler.answers 42]
      = .error .handlerException
    ∧ dispatch [Handler.declines, Handler.throws, Handler.answers 42]
      ≠ .ok 42 := by
  refine ⟨rfl, by simp [dispatch]⟩

/-- C2, amended: a handler that declines is skipped and resolution
continues with the rest of the chain, but an exception raised by any
handler propagates and aborts the whole resolution (no logging, no
continuation); in particular [A declines, B throws, C answers X] yields
B's exception, while without the thrower [A declines, C answers X]
resolves to X. -/
theorem dispatch_declines_skip_throws_abort {α : Type} (rest : List (Handler α)) (x : α) :
    dispatch (Handler.declines :: rest) = dispatch rest
    ∧ dispatch (Handler.throws :: rest) = .error .handlerException
    ∧ dispatch (Handler.answers x :: rest) = .ok x
    ∧ dispatch [Handler.declines, Handler.throws, Handler.answers x]
      = .error .handlerException
    ∧ dispatch [Handler.declines, Handler.answers x] = .ok x :=
  ⟨rfl, rfl, rfl, rfl, rfl⟩

/-! ### Claim C9 — TableConfig.remove

`TableConfig.remove` (`__init__.py` 353-365) is a `@classmethod` whose
parameter is `cls`, yet after deleting the matching record from the
in-memory list (and from the `_catalog` cache) it opens
`self.FILE_PATH` for writing — `self` is an undefined name there, so a
`NameError` is raised *before* the file is rewritten.  An absent key
raises `LookupError` from the for-else, as documented. -/

inductive RemoveError
  | lookupError       -- raise LookupError(key): key absent from the catalog
  | nameErrorSelf     -- NameError: `self` undefined in the classmethod body
  deriving DecidableEq, Repr

structure RemoveOutcome where
  error : RemoveError
  /-- contents of the persisted file after the call -/
  fileAfter : List (String × List (String × Int))
  /-- the in-memory `_catalog` key cache after the call -/
  catalogAfter : List String
  deriving DecidableEq, Repr

/-- `TableConfig.remove(key)` over a persisted file `configs` (list of
key/config records) and the in-memory catalog.  Mirrors the source: find
the record, delete it from the local list and from `_catalog`, then hit
the `self.FILE_PATH` NameError before writing; or fall into the for-else
`raise LookupError`. -/
def tableConfigRemove (configs : List (String × List (String × Int)))
    (catalog : List String) (key : String) : RemoveOutcome :=
  if configs.any (fun item => item.1 = key) then
    -- record found: `del configs[index]` and `cls._catalog.remove(key)`
    -- take effect in memory, then `open(self.FILE_PATH, "w")` raises
    -- NameError, so the file is left untouched.
    { error := .nameErrorSelf
      fileAfter := configs
      catalogAfter := catalog.eraseP (fun k => k = key) }
  else
    { error := .lookupError
      fileAfter := configs
      catalogAfter := catalog }

/-- C9: the absent-key half of the claim holds (`LookupError`), but the
present-key half fails: `remove` on an existing key raises `NameError`
(undefined `self` in a classmethod) before the file is rewritten, so the
record is never deleted from the persisted file — and the in-memory
catalog is left desynchronized, missing the key. -/
theorem tableConfigRemove_present_key_raises :
    (tableConfigRemove [] [] ("T1" : String)).error = .lookupError
    ∧ (tableConfigRemove [(("T1" : String), [])] ["T1"] "T1").error = .nameErrorSelf
    ∧ (tableConfigRemove [(("T1" : String), [])] ["T1"] "T1").fileAfter = [("T1", [])]
    ∧ (tableConfigRemove [(("T1" : String), [])] ["T1"] "T1").catalogAfter = [] := by
  refine ⟨rfl, rfl, rfl, ?_⟩
  simp [tableConfigRemove, List.eraseP]

/-! ### Claim C8 — integer-key round trip through the persisted file

`TableConfig.save` (`__init__.py` 427-444) serializes the leaf layer with
`json.dump`, which turns the integer keys of the maps listed in
`INT_KEY_MAPPINGS` into their decimal string form; `TableConfig.read`
(343-351) applies `restoreIntKeys` (367-379), whose inner `restored`
rebuilds every mapping with `int(k)` keys, recursing into mapping values
(the by-display-size column widths nest one level).  The decimal
printing of a Python int and the `int()` parse of such a string are
embedded below; the parser accepts the sign-plus-digits subset of what
`int()` accepts, which covers every string `json.dump` can produce for an
int key. -/

/-- Decimal digit characters of a natural number (the digits of
`str(n)`): most significant first, with `"0"` for zero. -/
def natKeyChars (n : Nat) : List Char :=
  if n = 0 then ['0'] else (Nat.digits 10 n).reverse.map Nat.digitChar

/-- The value of a decimal digit character, if it is one. -/
def decDigitVal (c : Char) : Option Nat :=
  if '0' ≤ c ∧ c ≤ '9' then some (c.toNat - '0'.toNat) else none

def parseDigitsAux : Nat → List Char → Option Nat
  | acc, [] => some acc
  | acc, c :: cs =>
    match decDigitVal c with
    | some d => parseDigitsAux (10 * acc + d) cs
    | none => none

/-- Parse an unsigned decimal numeral; empty input is invalid
(`int("")` raises `ValueError`). -/
def parseNatChars (l : List Char) : Option Nat :=
  if l.isEmpty then none else parseDigitsAux 0 l

/-- `str(i)` for a Python int key. -/
def intKeyStr (i : Int) : String :=
  if i < 0 then ⟨'-' :: natKeyChars i.natAbs⟩ else ⟨natKeyChars i.toNat⟩

/-- `int(s)` on a decimal numeral with optional leading minus sign. -/
def parseIntKey (s : String) : Option Int :=
  match s.data with
  | [] => none
  | c :: cs =>
    if c = '-' then (parseNatChars cs).map (fun n : Nat => -(n : Int))
    else (parseNatChars (c :: cs)).map (fun n : Nat => (n : Int))

theorem decDigitVal_digitChar : ∀ d, d < 10 → decDigitVal (Nat.digitChar d) = some d := by
  decide

theorem digitChar_ne_minus : ∀ d, d < 10 → Nat.digitChar d ≠ '-' := by
  decide

theorem parseDigitsAux_map_digitChar (ds : List Nat) (acc : Nat)
    (h : ∀ d ∈ ds, d < 10) :
    parseDigitsAux acc (ds.map Nat.digitChar)
      = some (List.foldl (fun a d => 10 * a + d) acc ds) := by
  induction ds generalizing acc with
  | nil => simp [parseDigitsAux]
  | cons d rest ih =>
    have hd : d < 10 := h d (List.mem_cons_self d rest)
    simp only [List.map_cons, parseDigitsAux, decDigitVal_digitChar d hd, List.foldl_cons]
    exact ih (10 * acc + d) (fun x hx => h x (List.mem_cons_of_mem d hx))

theorem foldl_reverse_ofDigits (l : List Nat) (acc : Nat) :
    List.foldl (fun a d => 10 * a + d) acc l.reverse
      = acc * 10 ^ l.length + Nat.ofDigits 10 l := by
  induction l generalizing acc with
  | nil => simp [Nat.ofDigits]
  | cons x xs ih =>
    simp only [List.reverse_cons, List.foldl_append, List.foldl_cons, List.foldl_nil,
      ih acc, List.length_cons, Nat.ofDigits_cons]
    ring

theorem parseNatChars_cons (c : Char) (cs : List Char) :
    parseNatChars (c :: cs) = parseDigitsAux 0 (c :: cs) := rfl

theorem parseNatChars_natKeyChars (n : Nat) : parseNatChars (natKeyChars n) = some n := by
  by_cases h : n = 0
  · subst h
    decide
  · have hne : (Nat.digits 10 n).reverse ≠ [] := by
      simp [Nat.digits_ne_nil_iff_ne_zero.mpr h]
    have hlt : ∀ d ∈ (Nat.digits 10 n).reverse, d < 10 := by
      intro d hd
      exact Nat.digits_lt_base (by norm_num) (List.mem_reverse.mp hd)
    obtain ⟨d, ds, hds⟩ := List.exists_cons_of_ne_nil hne
    have hred : parseNatChars ((Nat.digits 10 n).reverse.map Nat.digitChar)
        = parseDigitsAux 0 ((Nat.digits 10 n).reverse.map Nat.digitChar) := by
      rw [hds, List.map_cons]
      exact parseNatChars_cons _ _
    rw [natKeyChars, if_neg h, hred, parseDigitsAux_map_digitChar _ 0 hlt,
      foldl_reverse_ofDigits]
    simp [Nat.ofDigits_digits]

theorem natKeyChars_head_not_minus (n : Nat) :
    ∃ c cs, natKeyChars n = c :: cs ∧ c ≠ '-' := by
  by_cases h : n = 0
  · subst h
    exact ⟨'0', [], rfl, by decide⟩
  · have hne : (Nat.digits 10 n).reverse ≠ [] := by
      simp [Nat.digits_ne_nil_iff_ne_zero.mpr h]
    obtain ⟨d, ds, hds⟩ := List.exists_cons_of_ne_nil hne
    refine ⟨Nat.digitChar d, ds.map Nat.digitChar, by rw [natKeyChars, if_neg h, hds]; rfl, ?_⟩
    have hd : d < 10 := Nat.digits_lt_base (by norm_num)
      (List.mem_reverse.mp (hds ▸ List.mem_cons_self d ds))
    exact digitChar_ne_minus d hd

/-- The decimal int-key round trip is lossless. -/
theorem parseIntKey_intKeyStr (i : Int) : parseIntKey (intKeyStr i) = some i := by
  by_cases h : i < 0
  · rw [intKeyStr, if_pos h]
    have hred : parseIntKey ⟨'-' :: natKeyChars i.natAbs⟩
        = (parseNatChars (natKeyChars i.natAbs)).map (fun n : Nat => -(n : Int)) := by
      rfl
    rw [hred, parseNatChars_natKeyChars]
    simp only [Option.map_some']
    congr 1
    omega
  · rw [intKeyStr, if_neg h]
    obtain ⟨c, cs, hcons, hc⟩ := natKeyChars_head_not_minus i.toNat
    rw [hcons]
    have hred : parseIntKey ⟨c :: cs⟩
        = (parseNatChars (c :: cs)).map (fun n : Nat => (n : Int)) := by
      simp [parseIntKey, hc]
    rw [hred, ← hcons, parseNatChars_natKeyChars]
    simp only [Option.map_some']
    congr 1
    omega

/-- Marshal one integer-keyed map to its JSON form: `json.dump`
stringifies each int key with its decimal representation. -/
def marshalIntKeys {α : Type} (m : List (Int × α)) : List (String × α) :=
  m.map (fun e => (intKeyStr e.1, e.2))

/-- The inner `restored` of `TableConfig.restoreIntKeys`: rebuild a
mapping with `int(k)` keys; a non-numeric key raises `ValueError`
(embedded as `none`). -/
def restoreIntKeysList {α : Type} : List (String × α) → Option (List (Int × α))
  | [] => some []
  | (k, v) :: rest =>
    match parseIntKey k, restoreIntKeysList rest with
    | some ik, some r => some ((ik, v) :: r)
    | _, _ => none

/-- `restored` recurses into values that are themselves mappings: the
nested by-display-size column width store. -/
def marshalIntKeysNested (m : List (Int × List (Int × Int))) :
    List (String × List (String × Int)) :=
  m.map (fun e => (intKeyStr e.1, marshalIntKeys e.2))

def restoreIntKeysNested : List (String × List (String × Int)) →
    Option (List (Int × List (Int × Int)))
  | [] => some []
  | (k, v) :: rest =>
    match parseIntKey k, restoreIntKeysList v, restoreIntKeysNested rest with
    | some ik, some iv, some r => some ((ik, iv) :: r)
    | _, _, _ => none

theorem restoreIntKeysList_marshalIntKeys {α : Type} (m : List (Int × α)) :
    restoreIntKeysList (marshalIntKeys m) = some m := by
  induction m with
  | nil => rfl
  | cons e rest ih =>
    obtain ⟨k, v⟩ := e
    simp only [marshalIntKeys, List.map_cons] at ih ⊢
    simp only [restoreIntKeysList, parseIntKey_intKeyStr, ih]

theorem restoreIntKeysNested_marshalIntKeysNested (m : List (Int × List (Int × Int))) :
    restoreIntKeysNested (marshalIntKeysNested m) = some m := by
  induction m with
  | nil => rfl
  | cons e rest ih =>
    obtain ⟨k, v⟩ := e
    simp only [marshalIntKeysNested, List.map_cons] at ih ⊢
    simp only [restoreIntKeysNested, parseIntKey_intKeyStr,
      restoreIntKeysList_marshalIntKeys, ih]

/-- The integer-keyed maps of a `TableConfig` leaf layer, typed as in the
defaults (`TableConfig.DEFAULTS` / `INT_KEY_MAPPINGS`, `__init__.py`
262-284): widths are ints, custom headers are texts, markings are
announce flags, and the per-display-size column width store nests a
second integer-keyed map. -/
structure TableCfgIntMaps where
  defaultColumnWidthByDisplaySize : List (Int × Int)
  columnWidthsByDisplaySize : List (Int × List (Int × Int))
  customRowHeaders : List (Int × String)
  customColumnHeaders : List (Int × String)
  markedRowNumbers : List (Int × Option Bool)
  markedColumnNumbers : List (Int × Option Bool)
  deriving DecidableEq, Repr

/-- The same maps as serialized in the persisted JSON file (string keys
only). -/
structure TableCfgStrMaps where
  defaultColumnWidthByDisplaySize : List (String × Int)
  columnWidthsByDisplaySize : List (String × List (String × Int))
  customRowHeaders : List (String × String)
  customColumnHeaders : List (String × String)
  markedRowNumbers : List (String × Option Bool)
  markedColumnNumbers : List (String × Option Bool)
  deriving DecidableEq, Repr

/-- `TableConfig.save`: the leaf layer is dumped with int keys
stringified (including the nested width maps). -/
def tableConfigMarshal (cfg : TableCfgIntMaps) : TableCfgStrMaps where
  defaultColumnWidthByDisplaySize := marshalIntKeys cfg.defaultColumnWidthByDisplaySize
  columnWidthsByDisplaySize := marshalIntKeysNested cfg.columnWidthsByDisplaySize
  customRowHeaders := marshalIntKeys cfg.customRowHeaders
  customColumnHeaders := marshalIntKeys cfg.customColumnHeaders
  markedRowNumbers := marshalIntKeys cfg.markedRowNumbers
  markedColumnNumbers := marshalIntKeys cfg.markedColumnNumbers

/-- `TableConfig.restoreIntKeys`: on read, each map named in
`INT_KEY_MAPPINGS` has its keys parsed back to integers, recursively for
mapping values. -/
def tableConfigRestoreIntKeys (data : TableCfgStrMaps) : Option TableCfgIntMaps :=
  match restoreIntKeysList data.defaultColumnWidthByDisplaySize,
      restoreIntKeysNested data.columnWidthsByDisplaySize,
      restoreIntKeysList data.customRowHeaders,
      restoreIntKeysList data.customColumnHeaders,
      restoreIntKeysList data.markedRowNumbers,
      restoreIntKeysList data.markedColumnNumbers with
  | some a, some b, some c, some d, some e, some f =>
    some ⟨a, b, c, d, e, f⟩
  | _, _, _, _, _, _ => none

/-- Write the ordered `{key, config}` record list and reload a config by
key: `TableConfig.save` serializes, `TableConfig.load` scans `read()`
(which applies `restoreIntKeys`) for the first record with that key. -/
def configFileWrite (records : List (String × TableCfgIntMaps)) :
    List (String × TableCfgStrMaps) :=
  records.map (fun r => (r.1, tableConfigMarshal r.2))

def configFileLoad (file : List (String × TableCfgStrMaps)) (key : String) :
    Option TableCfgIntMaps :=
  match file with
  | [] => none
  | (k, data) :: rest =>
    if k = key then tableConfigRestoreIntKeys data else configFileLoad rest key

/-- C8: restoring a marshalled config succeeds and yields the original
integer-keyed maps — the int → string → int key round trip is lossless,
including for the nested by-display-size width maps. -/
theorem tableConfig_intKey_roundtrip (cfg : TableCfgIntMaps)
    (records : List (String × TableCfgIntMaps)) (key : String) :
    tableConfigRestoreIntKeys (tableConfigMarshal cfg) = some cfg
    ∧ configFileLoad (configFileWrite ((key, cfg) :: records)) key = some cfg := by
  have hcfg : ∀ c : TableCfgIntMaps,
      tableConfigRestoreIntKeys (tableConfigMarshal c) = some c := by
    intro c
    obtain ⟨a, b, c₁, d, e, f⟩ := c
    simp only [tableConfigMarshal, tableConfigRestoreIntKeys,
      restoreIntKeysList_marshalIntKeys, restoreIntKeysNested_marshalIntKeysNested]
  refine ⟨hcfg cfg, ?_⟩
  simp only [configFileWrite, List.map_cons, configFileLoad, if_pos rfl, hcfg cfg]
  simp

/-! ### Claim C5 — incremental movement along an axis

`TableManager._tableMovementScriptHelper` (behaviors.py 1166-1233).  The
helper is generic over the axis: it works through `getNum` (object →
row/column number), `getObj` (number → object, `None` when the source
yields nothing), `getSpan` (the safe span, clamped to ≥ 1 by
`getRowSpanSafe`/`getColumnSpanSafe`) and the row filter predicate
`honorsFilter`.  Objects are embedded as identifiers; `toObj is fromObj`
is identifier equality (the row/cell caches make repeated lookups return
the identical object). -/

structure AxisOps where
  getNum : Nat → Nat
  getObj : Nat → Option Nat
  getSpan : Nat → Nat
  honors : Nat → Bool

inductive Direction
  | next
  | previous
  deriving DecidableEq, Repr

inductive MoveMsg
  | edgeOfTable
  | noNextMatchingRow
  | noPreviousMatchingRow
  deriving DecidableEq, Repr

inductive MoveRes
  | moved (toNum toId : Nat)
  | failed (msg : MoveMsg)
  deriving DecidableEq, Repr

/-- The inner while-loop of the `DIRECTION_PREVIOUS` branch: starting at
`fromNum - 1`, step further back while the probed object is the starting
object and the probed number is still above 1. -/
def probePrevious (ops : AxisOps) (fromId : Nat) (toNum : Nat) : Nat × Option Nat :=
  match ops.getObj toNum with
  | some t =>
    if h : t = fromId ∧ 1 < toNum then probePrevious ops fromId (toNum - 1)
    else (toNum, some t)
  | none => (toNum, none)
termination_by toNum
decreasing_by omega

/-- The adjacent-coordinate probe: `current + span` for next,
`current − 1` stepping back past merged spans for previous. -/
def probeTarget (ops : AxisOps) (dir : Direction) (fromId : Nat) : Nat × Option Nat :=
  match dir with
  | .next =>
    let n := ops.getNum fromId + ops.getSpan fromId
    (n, ops.getObj n)
  | .previous => probePrevious ops fromId (ops.getNum fromId - 1)

/-- The helper's main loop.  `filterActive` embeds
`axis == AXIS_ROWS and filterText`; `filtered` is the flag recording that
at least one row was skipped; the recursion re-enters the loop with
`fromObj = toObj` after a skip.  `fuel` bounds the iteration count of the
Python `while True` (the loop can diverge for ill-formed axis models, as
it could in the source). -/
def movementHelper (ops : AxisOps) (dir : Direction) (filterActive : Bool) :
    Nat → Nat → Bool → Option MoveRes
  | 0, _, _ => none
  | fuel + 1, fromId, filtered =>
    match (probeTarget ops dir fromId).2 with
    | none =>
      some (.failed (if filtered then
        (match dir with
         | .next => .noNextMatchingRow
         | .previous => .noPreviousMatchingRow)
        else .edgeOfTable))
    | some t =>
      if ops.getNum t = ops.getNum fromId then some (.failed .edgeOfTable)
      else if filterActive then
        if ops.honors t then some (.moved (ops.getNum t) t)
        else movementHelper ops dir filterActive fuel t true
      else some (.moved (ops.getNum t) t)

/-- `_moveToRow` / `_moveToColumn` update the current coordinate only on
success; both failure reports leave it unchanged. -/
def applyMovement (cur : Nat) : MoveRes → Nat
  | .moved n _ => n
  | .failed _ => cur

theorem movementHelper_zero (ops : AxisOps) (dir : Direction) (fa : Bool)
    (fromId : Nat) (filtered : Bool) :
    movementHelper ops dir fa 0 fromId filtered = none := rfl

theorem movementHelper_succ (ops : AxisOps) (dir : Direction) (fa : Bool)
    (fuel fromId : Nat) (filtered : Bool) :
    movementHelper ops dir fa (fuel + 1) fromId filtered
      = match (probeTarget ops dir fromId).2 with
        | none =>
          some (.failed (if filtered then
            (match dir with
             | .next => .noNextMatchingRow
             | .previous => .noPreviousMatchingRow)
            else .edgeOfTable))
        | some t =>
          if ops.getNum t = ops.getNum fromId then some (.failed .edgeOfTable)
          else if fa then
            if ops.honors t then some (.moved (ops.getNum t) t)
            else movementHelper ops dir fa fuel t true
          else some (.moved (ops.getNum t) t) := rfl

theorem probePrevious_spec (ops : AxisOps) (fromId : Nat) (k : Nat) :
    (probePrevious ops fromId k).2 = ops.getObj (probePrevious ops fromId k).1
    ∧ (probePrevious ops fromId k).1 ≤ k
    ∧ (∀ j, (probePrevious ops fromId k).1 < j → j ≤ k → ops.getObj j = some fromId)
    ∧ ((probePrevious ops fromId k).2 = some fromId → (probePrevious ops fromId k).1 ≤ 1) := by
  induction k using Nat.strong_induction_on with
  | _ k ih =>
    cases hobj : ops.getObj k with
    | none =>
      have hred : probePrevious ops fromId k = (k, none) := by
        rw [probePrevious, hobj]
      rw [hred]
      exact ⟨hobj.symm, le_refl _, fun j h₁ h₂ => absurd h₁ (by omega), fun hc => by
        simp at hc⟩
    | some t =>
      by_cases h : t = fromId ∧ 1 < k
      · have hred : probePrevious ops fromId k = probePrevious ops fromId (k - 1) := by
          rw [probePrevious, hobj]
          dsimp only
          rw [dif_pos h]
        rw [hred]
        obtain ⟨ih₁, ih₂, ih₃, ih₄⟩ := ih (k - 1) (by omega)
        refine ⟨ih₁, by omega, fun j h₁ h₂ => ?_, ih₄⟩
        by_cases hj : j ≤ k - 1
        · exact ih₃ j h₁ hj
        · have : j = k := by omega
          rw [this, hobj, h.1]
      · have hred : probePrevious ops fromId k = (k, some t) := by
          rw [probePrevious, hobj]
          dsimp only
          rw [dif_neg h]
        rw [hred]
        refine ⟨hobj.symm, le_refl _, fun j h₁ h₂ => absurd h₁ (by omega), fun hc => ?_⟩
        have ht : t = fromId := by
          simp only [Option.some_inj] at hc
          exact hc
        have : ¬ 1 < k := fun hk => h ⟨ht, hk⟩
        omega

theorem movementHelper_moved_honors (ops : AxisOps) (dir : Direction) (fuel : Nat) :
    ∀ fromId filtered n t,
      movementHelper ops dir true fuel fromId filtered = some (.moved n t) →
      ops.honors t = true ∧ n = ops.getNum t := by
  induction fuel with
  | zero => intro fromId filtered n t h; simp [movementHelper_zero] at h
  | succ fuel ih =>
    intro fromId filtered n t h
    rw [movementHelper_succ] at h
    cases hprobe : (probeTarget ops dir fromId).2 with
    | none => rw [hprobe] at h; simp at h
    | some u =>
      rw [hprobe] at h
      simp only at h
      by_cases hsame : ops.getNum u = ops.getNum fromId
      · rw [if_pos hsame] at h; simp at h
      · rw [if_neg hsame] at h
        simp only [if_true] at h
        by_cases hh : ops.honors u = true
        · rw [if_pos hh] at h
          simp only [Option.some_inj, MoveRes.moved.injEq] at h
          exact ⟨h.2 ▸ hh, by rw [← h.1, h.2]⟩
        · rw [if_neg hh] at h
          exact ih u true n t h

theorem movementHelper_nofilter_failed_edge (ops : AxisOps) (dir : Direction) (fuel : Nat) :
    ∀ fromId m,
      movementHelper ops dir false fuel fromId false = some (.failed m) →
      m = .edgeOfTable := by
  intro fromId m h
  cases fuel with
  | zero => simp [movementHelper_zero] at h
  | succ fuel =>
    rw [movementHelper_succ] at h
    cases hprobe : (probeTarget ops dir fromId).2 with
    | none =>
      rw [hprobe] at h
      simp only [Bool.false_eq_true, if_false, Option.some_inj, MoveRes.failed.injEq] at h
      exact h.symm
    | some u =>
      rw [hprobe] at h
      simp only at h
      by_cases hsame : ops.getNum u = ops.getNum fromId
      · rw [if_pos hsame] at h
        simp only [Option.some_inj, MoveRes.failed.injEq] at h
        exact h.symm
      · rw [if_neg hsame] at h
        simp only [Bool.false_eq_true, if_false, Option.some_inj] at h
        cases h

theorem movementHelper_filter_failed (ops : AxisOps) (dir : Direction) (fuel : Nat) :
    ∀ fromId filtered m,
      movementHelper ops dir true fuel fromId filtered = some (.failed m) →
      m ≠ .edgeOfTable →
      ((dir = .next → m = .noNextMatchingRow)
        ∧ (dir = .previous → m = .noPreviousMatchingRow)
        ∧ (filtered = true ∨ ∃ s, ops.honors s = false)) := by
  induction fuel with
  | zero => intro fromId filtered m h _; simp [movementHelper_zero] at h
  | succ fuel ih =>
    intro fromId filtered m h hne
    rw [movementHelper_succ] at h
    cases hprobe : (probeTarget ops dir fromId).2 with
    | none =>
      rw [hprobe] at h
      simp only [Option.some_inj, MoveRes.failed.injEq] at h
      cases hf : filtered with
      | false => rw [hf] at h; simp at h; exact absurd h.symm hne
      | true =>
        rw [hf] at h
        simp only [if_true] at h
        cases dir with
        | next =>
          exact ⟨fun _ => h.symm, fun hd => Direction.noConfusion hd, Or.inl rfl⟩
        | previous =>
          exact ⟨fun hd => Direction.noConfusion hd, fun _ => h.symm, Or.inl rfl⟩
    | some u =>
      rw [hprobe] at h
      simp only at h
      by_cases hsame : ops.getNum u = ops.getNum fromId
      · rw [if_pos hsame] at h
        simp only [Option.some_inj, MoveRes.failed.injEq] at h
        exact absurd h.symm hne
      · rw [if_neg hsame] at h
        simp only [if_true] at h
        by_cases hh : ops.honors u = true
        · rw [if_pos hh] at h; cases h
        · rw [if_neg hh] at h
          obtain ⟨c₁, c₂, _⟩ := ih u true m h hne
          exact ⟨c₁, c₂, Or.inr ⟨u, by simpa using hh⟩⟩

/-- C5, counterexample.  The claim asserts that when a row filter is
active, exhaustion is reported as "no next/previous matching row",
distinct from "edge of table".  But the code picks that message off the
`filtered` flag, which is set only after a row has actually been
*skipped*: probing past the last row (2) of a two-row table with the
filter active exhausts immediately — no row was skipped — and reports
plain edge-of-table. -/
theorem tableMovement_filtered_exhaustion_counterexample :
    movementHelper ⟨fun id => id, fun n => if 1 ≤ n ∧ n ≤ 2 then some n else none,
        fun _ => 1, fun n => decide (n = 1)⟩ .next true 1 2 false
      = some (.failed .edgeOfTable)
    ∧ MoveMsg.edgeOfTable ≠ MoveMsg.noNextMatchingRow := by
  refine ⟨rfl, by decide⟩

/-- C5, amended: incremental movement along an axis.  (a) With direction
next the helper probes `current + span`; with direction previous it
starts the probe at `current − 1` and steps further back while the probe
still resolves to the starting object.  (b) If the probed target does
not exist, or (c) resolves to the same row/column number as the start,
the move fails with a boundary report and the current coordinate is left
unchanged; (d) otherwise it moves to the resolved number.  (e) With an
active row filter a successful move lands on a row honoring the filter
and (f) without a filter every failure is reported as edge-of-table.
For the filtered messages: (g) a non-edge failure carries the
direction's no-matching-row message and implies some probed row failed
the filter; (h) skipping a non-matching row re-enters the loop from that
row with the `filtered` flag set, and (i) once the flag is set,
exhaustion is reported as the direction's no-matching-row message —
(j) distinct from edge-of-table.  (Per the counterexample, when the
probes exhaust before any row is skipped the report is plain
edge-of-table even though the filter is active.) -/
theorem tableMovement_incremental_properties (ops : AxisOps) (dir : Direction)
    (fromId cur fuel : Nat) :
    (probeTarget ops .next fromId
      = (ops.getNum fromId + ops.getSpan fromId,
         ops.getObj (ops.getNum fromId + ops.getSpan fromId)))
    ∧ ((probeTarget ops .previous fromId).1 ≤ ops.getNum fromId - 1
       ∧ (probeTarget ops .previous fromId).2
           = ops.getObj (probeTarget ops .previous fromId).1
       ∧ (∀ j, (probeTarget ops .previous fromId).1 < j →
            j ≤ ops.getNum fromId - 1 → ops.getObj j = some fromId))
    ∧ ((probeTarget ops dir fromId).2 = none →
        movementHelper ops dir false (fuel + 1) fromId false
          = some (.failed .edgeOfTable)
        ∧ applyMovement cur (.failed .edgeOfTable) = cur)
    ∧ (∀ t fa, (probeTarget ops dir fromId).2 = some t →
        ops.getNum t = ops.getNum fromId →
        movementHelper ops dir fa (fuel + 1) fromId false
          = some (.failed .edgeOfTable))
    ∧ (∀ t, (probeTarget ops dir fromId).2 = some t →
        ops.getNum t ≠ ops.getNum fromId →
        movementHelper ops dir false (fuel + 1) fromId false
          = some (.moved (ops.getNum t) t)
        ∧ applyMovement cur (.moved (ops.getNum t) t) = ops.getNum t)
    ∧ (∀ f n t, movementHelper ops dir true f fromId false = some (.moved n t) →
        ops.honors t = true)
    ∧ (∀ f m, movementHelper ops dir false f fromId false = some (.failed m) →
        m = .edgeOfTable)
    ∧ (∀ f m, movementHelper ops dir true f fromId false = some (.failed m) →
        m ≠ .edgeOfTable →
        ((dir = .next → m = .noNextMatchingRow)
          ∧ (dir = .previous → m = .noPreviousMatchingRow)
          ∧ ∃ s, ops.honors s = false))
    ∧ (∀ f filtered t, (probeTarget ops dir fromId).2 = some t →
        ops.getNum t ≠ ops.getNum fromId →
        ops.honors t = false →
        movementHelper ops dir true (f + 1) fromId filtered
          = movementHelper ops dir true f t true)
    ∧ (∀ f, (probeTarget ops dir fromId).2 = none →
        movementHelper ops dir true (f + 1) fromId true
          = some (.failed (if dir = .next then .noNextMatchingRow
              else .noPreviousMatchingRow)))
    ∧ MoveMsg.noNextMatchingRow ≠ MoveMsg.edgeOfTable
    ∧ MoveMsg.noPreviousMatchingRow ≠ MoveMsg.edgeOfTable := by
  obtain ⟨p₁, p₂, p₃, _⟩ := probePrevious_spec ops fromId (ops.getNum fromId - 1)
  refine ⟨rfl, ⟨p₂, p₁, p₃⟩, ?_, ?_, ?_, ?_, ?_, ?_, ?_, ?_, by decide, by decide⟩
  · intro hnone
    rw [movementHelper_succ, hnone]
    exact ⟨rfl, rfl⟩
  · intro t fa hsome hsame
    rw [movementHelper_succ, hsome]
    simp only [if_pos hsame]
  · intro t hsome hne
    rw [movementHelper_succ, hsome]
    simp only [if_neg hne, Bool.false_eq_true, if_false]
    exact ⟨by trivial, rfl⟩
  · intro f n t h
    exact (movementHelper_moved_honors ops dir f fromId false n t h).1
  · intro f m h
    exact movementHelper_nofilter_failed_edge ops dir f fromId m h
  · intro f m h hne
    obtain ⟨c₁, c₂, c₃⟩ := movementHelper_filter_failed ops dir f fromId false m h hne
    refine ⟨c₁, c₂, ?_⟩
    cases c₃ with
    | inl hc => cases hc
    | inr hc => exact hc
  · intro f filtered t hsome hne hhon
    rw [movementHelper_succ, hsome]
    simp only [if_neg hne, if_true, hhon, Bool.false_eq_true, if_false]
  · intro f hnone
    rw [movementHelper_succ, hnone]
    cases dir <;> rfl

/-- C5, witness: on a three-row table (spans 1, bounds 1..3) an
unfiltered probe past the last row reports edge-of-table and an
unfiltered probe from row 1 moves to row 2; on a two-row table whose
row 2 fails the filter, a filtered move from row 1 skips row 2, exhausts,
and reports the distinct no-next-matching-row message. -/
theorem tableMovement_incremental_properties_witness :
    movementHelper ⟨fun id => id, fun n => if 1 ≤ n ∧ n ≤ 3 then some n else none,
        fun _ => 1, fun n => decide (n ≠ 2)⟩ .next false 1 3 false
      = some (.failed .edgeOfTable)
    ∧ movementHelper ⟨fun id => id, fun n => if 1 ≤ n ∧ n ≤ 3 then some n else none,
        fun _ => 1, fun n => decide (n ≠ 2)⟩ .next false 1 1 false
      = some (.moved 2 2)
    ∧ movementHelper ⟨fun id => id, fun n => if 1 ≤ n ∧ n ≤ 2 then some n else none,
        fun _ => 1, fun n => decide (n = 1)⟩ .next true 2 1 false
      = some (.failed .noNextMatchingRow) := by
  refine ⟨((tableMovement_incremental_properties
      ⟨fun id => id, fun n => if 1 ≤ n ∧ n ≤ 3 then some n else none,
        fun _ => 1, fun n => decide (n ≠ 2)⟩ .next 3 3 0).2.2.1 (by decide)).1, ?_, ?_⟩
  · exact ((tableMovement_incremental_properties
      ⟨fun id => id, fun n => if 1 ≤ n ∧ n ≤ 3 then some n else none,
        fun _ => 1, fun n => decide (n ≠ 2)⟩ .next 1 1 0).2.2.2.2.1 2
      (by decide) (by decide)).1
  · have hskip := (tableMovement_incremental_properties
      ⟨fun id => id, fun n => if 1 ≤ n ∧ n ≤ 2 then some n else none,
        fun _ => 1, fun n => decide (n = 1)⟩ .next 1 1 0).2.2.2.2.2.2.2.2.1
      1 false 2 (by decide) (by decide) (by decide)
    have hexh := (tableMovement_incremental_properties
      ⟨fun id => id, fun n => if 1 ≤ n ∧ n ≤ 2 then some n else none,
        fun _ => 1, fun n => decide (n = 1)⟩ .next 2 2 0).2.2.2.2.2.2.2.2.2.1
      0 (by decide)
    rw [hskip, hexh]
    rfl

/-! ### Claims C1 and C3 — braille window packing

`RowRegion.getColumns` (behaviors.py 359-436) walks the row's cells in
column order, appending `(windowNumber, width, object)` triples for cells
and the separators between them, maintaining the running `winSize` of the
current window.  Widths are Python ints or `None` (unbounded); the
embedding uses `Option Int`.  The separator objects' position enums are
tracked because they steer the close-window branch; the separators'
`parent`/`cellBefore`/`cellAfter` constructor arguments do not affect
widths or positions and are omitted.  `selNum` embeds
`row.table._currentColumnNumber` (possibly `None`).  Python runtime
errors are embedded as `PackError` values:

* `assertColumnsLen` — `assert len(columns) >= 2` (line 381);
* `attributeError` — `.position` read on a cell triple;
* `typeErrorWidth` — arithmetic on a `None` width (line 399);
* `assertWinSizeZero` — `assert winSize == 0` (line 407);
* `nameErrorSepWidth` — line 408 reads `colSepWidthAtEoW`, a name defined
  nowhere (the local is `sepWidthAtEoW`), so entering the
  unbounded-width-cell branch raises `NameError`. -/

inductive SepPosition
  | default
  | beforeSelection
  | afterSelection
  | endOfWindow
  | eowAfterSel
  deriving DecidableEq, Repr

inductive ColObj
  | cell (colNum : Nat)
  | sep (pos : SepPosition)
  deriving DecidableEq, Repr

structure ColEntry where
  winNum : Nat
  width : Option Int
  obj : ColObj
  deriving DecidableEq, Repr

inductive PackError
  | assertColumnsLen
  | attributeError
  | typeErrorWidth
  | assertWinSizeZero
  | nameErrorSepWidth
  deriving DecidableEq, Repr

/-- The fit test of line 373-377:
`cellWidth is not None and winSize + cellWidth + (0 if last else sepWidthAtEoW) <= displaySize`. -/
def fitsCond (D sepE winSize : Int) (cellWidth0 : Option Int) (last : Bool) : Prop :=
  match cellWidth0 with
  | some w => winSize + w + (if last then 0 else sepE) ≤ D
  | none => False

instance instFitsCondDecidable (D sepE winSize : Int) (cellWidth0 : Option Int)
    (last : Bool) : Decidable (fitsCond D sepE winSize cellWidth0 last) := by
  unfold fitsCond
  cases cellWidth0 <;> infer_instance

/-- Lines 379-404: not enough room in the current window — shrink the
previous column separator to its end-of-window width, retroactively
expand the previous column to fill the display, and move on to the next
window.  `columns` is held in reverse (most recent entry first).  Note
line 391 *compares* (`==`) the position with `END_OF_WINDOW` instead of
assigning it, so in the `DEFAULT`/`BEFORE_SELECTION` case the position is
left unchanged while `expandPrevCell` is still set. -/
def closeWindow (D sepD sepE : Int) (acc : List ColEntry) (winNum : Nat)
    (winSize : Int) : Except PackError (List ColEntry × Nat × Int) :=
  match acc with
  | [] => .ok (acc, winNum + 1, 0)
  | [_] => .error .assertColumnsLen
  | e1 :: e2 :: accRest =>
    match e1.obj with
    | .cell _ => .error .attributeError
    | .sep pos =>
      let posExpand : SepPosition × Bool :=
        if pos = .afterSelection then (.eowAfterSel, true)
        else if pos = .default ∨ pos = .beforeSelection then (pos, true)
        else (pos, false)
      let e1' : ColEntry := ⟨e1.winNum, some sepE, .sep posExpand.1⟩
      if posExpand.2 then
        match e2.width with
        | none => .error .typeErrorWidth
        | some prevWidth =>
          let winSize' := winSize - (prevWidth + sepD - sepE)
          let e2' : ColEntry := ⟨e2.winNum, some (D - winSize'), e2.obj⟩
          .ok (e1' :: e2' :: accRest, winNum + 1, 0)
      else .ok (e1' :: e2 :: accRest, winNum + 1, 0)

/-- One iteration of the for-loop for cell `(colNum, cellWidth0)`; `last`
is `index + 1 >= len(cells)`.  Returns the next loop state, the final
result when the loop breaks after the last cell, or the Python error the
iteration raises. -/
inductive StepRes
  | done (cols : List ColEntry) (maxW : Nat)
  | cont (acc : List ColEntry) (winNum : Nat) (winSize : Int)
  | fail (e : PackError)
  deriving DecidableEq, Repr

/-- Lines 405-434: decide the recorded width of this cell (`None` for the
last cell, which is allowed to overflow to additional windows), append its
triple, adjust the separator pattern around the selected column, then
either break (last cell: no trailing separator) or append the default
separator and grow `winSize`. -/
def appendCellPhase (sepD : Int) (sel : Option Nat) (colNum : Nat)
    (cellWidth0 : Option Int) (last : Bool) (acc1 : List ColEntry) (winNum1 : Nat)
    (winSize1 : Int) : StepRes :=
  if ¬ last ∧ cellWidth0 = none then
    -- `assert winSize == 0`, then NameError on `colSepWidthAtEoW`
    if winSize1 ≠ 0 then .fail .assertWinSizeZero else .fail .nameErrorSepWidth
  else
    let cellWidth : Option Int := if last then none else cellWidth0
    let cellEntry : ColEntry := ⟨winNum1, cellWidth, .cell colNum⟩
    -- lines 416-424: separator pattern around the selected column
    let selRes : Except PackError (List ColEntry × SepPosition) :=
      if some colNum = sel then
        match acc1 with
        | [] => .ok (cellEntry :: acc1, .afterSelection)
        | e :: accRest =>
          match e.obj with
          | .cell _ => .error .attributeError
          | .sep p =>
            let e' : ColEntry :=
              if p = .default then ⟨e.winNum, e.width, .sep .beforeSelection⟩ else e
            .ok (cellEntry :: e' :: accRest, .afterSelection)
      else .ok (cellEntry :: acc1, .default)
    match selRes with
    | .error e => .fail e
    | .ok (acc2, position) =>
      if last then .done acc2.reverse winNum1
      else
        match cellWidth0 with
        | none => .fail .typeErrorWidth
        | some w =>
          .cont (⟨winNum1, some sepD, .sep position⟩ :: acc2) winNum1
            (winSize1 + w + sepD)

def getColumnsStep (D sepD sepE : Int) (sel : Option Nat) (colNum : Nat)
    (cellWidth0 : Option Int) (last : Bool) (acc : List ColEntry) (winNum : Nat)
    (winSize : Int) : StepRes :=
  -- lines 373-404: close the current window when the cell does not fit
  match (if fitsCond D sepE winSize cellWidth0 last ∨ winSize = 0 ∨ cellWidth0 = none
      then .ok (acc, winNum, winSize)
      else closeWindow D sepD sepE acc winNum winSize :
      Except PackError (List ColEntry × Nat × Int)) with
  | .error e => .fail e
  | .ok (acc1, winNum1, winSize1) =>
    appendCellPhase sepD sel colNum cellWidth0 last acc1 winNum1 winSize1

def getColumnsLoop (D sepD sepE : Int) (sel : Option Nat) :
    List (Nat × Option Int) → List ColEntry → Nat → Int →
    Except PackError (List ColEntry × Nat)
  | [], acc, winNum, _ => .ok (acc.reverse, winNum)
  | (colNum, cellWidth0) :: rest, acc, winNum, winSize =>
    match getColumnsStep D sepD sepE sel colNum cellWidth0 rest.isEmpty acc winNum
        winSize with
    | .done cols maxW => .ok (cols, maxW)
    | .fail e => .error e
    | .cont acc' winNum' winSize' => getColumnsLoop D sepD sepE sel rest acc' winNum' winSize'

/-- `RowRegion.getColumns`: pack the row's cells (column number, braille
width) into windows of the display size `D`, with separator widths
`sepD` (`ColumnSeparatorRegion.widthDefault`) and `sepE` (`widthAtEoW`).
Returns the `(windowNumber, width, object)` list and `maxWindowNumber`,
or the Python error the source raises. -/
def getColumns (D sepD sepE : Int) (sel : Option Nat)
    (cells : List (Nat × Option Int)) : Except PackError (List ColEntry × Nat) :=
  getColumnsLoop D sepD sepE sel cells [] 0 0

/-- Total of the width-carrying entries assigned to window `k`
(an unbounded `None` entry contributes nothing). -/
def windowWidthSum : List ColEntry → Nat → Int
  | [], _ => 0
  | e :: rest, k => (if e.winNum = k then e.width.getD 0 else 0) + windowWidthSum rest k

theorem windowWidthSum_append (l₁ l₂ : List ColEntry) (k : Nat) :
    windowWidthSum (l₁ ++ l₂) k = windowWidthSum l₁ k + windowWidthSum l₂ k := by
  induction l₁ with
  | nil => simp [windowWidthSum]
  | cons e rest ih => simp [windowWidthSum, ih]; ring

theorem windowWidthSum_reverse (l : List ColEntry) (k : Nat) :
    windowWidthSum l.reverse k = windowWidthSum l k := by
  induction l with
  | nil => rfl
  | cons e rest ih =>
    rw [List.reverse_cons, windowWidthSum_append, ih, windowWidthSum]
    simp [windowWidthSum]
    ring

theorem windowWidthSum_eq_zero (l : List ColEntry) (k : Nat)
    (h : ∀ e ∈ l, e.winNum ≠ k) : windowWidthSum l k = 0 := by
  induction l with
  | nil => rfl
  | cons e rest ih =>
    rw [windowWidthSum, if_neg (h e (List.mem_cons_self e rest)), ih
      (fun x hx => h x (List.mem_cons_of_mem e hx))]
    ring

/-- Loop invariant for `getColumnsLoop` over rows of fixed-width cells:
every earlier window sums exactly to the display size, the running
`winSize` is the width total of the current window, and a non-empty
current window always ends (head of the reversed list) with a
default-width separator in a pre-end-of-window position, preceded by a
fixed-width cell. -/
def PackInv (D sepD : Int) (acc : List ColEntry) (winNum : Nat) (winSize : Int) : Prop :=
  (∀ e ∈ acc, e.winNum ≤ winNum)
  ∧ (∀ k, k < winNum → windowWidthSum acc k = D)
  ∧ windowWidthSum acc winNum = winSize
  ∧ 0 ≤ winSize
  ∧ (winSize ≠ 0 → ∃ p w c accRest,
      acc = ⟨winNum, some sepD, .sep p⟩ :: ⟨winNum, some w, .cell c⟩ :: accRest
      ∧ (p = .default ∨ p = .afterSelection))
  ∧ (∀ e accRest, acc = e :: accRest → ∃ p, e.obj = .sep p)

theorem closeWindow_spec (D sepD sepE : Int) (acc : List ColEntry) (winNum : Nat)
    (winSize : Int) (hinv : PackInv D sepD acc winNum winSize) (hnz : winSize ≠ 0) :
    ∃ acc', closeWindow D sepD sepE acc winNum winSize = .ok (acc', winNum + 1, 0)
      ∧ PackInv D sepD acc' (winNum + 1) 0 := by
  obtain ⟨inv1, inv2, inv3, inv4, inv5, inv6⟩ := hinv
  obtain ⟨p, w, c, accRest, hacc, hp⟩ := inv5 hnz
  subst hacc
  refine ⟨⟨winNum, some sepE,
      .sep (if p = SepPosition.afterSelection then SepPosition.eowAfterSel else p)⟩
    :: ⟨winNum, some (D - (winSize - (w + sepD - sepE))), .cell c⟩ :: accRest, ?_, ?_⟩
  · cases hp with
    | inl h => subst h; simp [closeWindow]
    | inr h => subst h; simp [closeWindow]
  · refine ⟨?_, ?_, ?_, le_refl 0, fun h0 => absurd rfl h0, ?_⟩
    · intro e he
      simp only [List.mem_cons] at he
      rcases he with h | h | h
      · subst h; exact Nat.le_succ winNum
      · subst h; exact Nat.le_succ winNum
      · exact Nat.le_succ_of_le (inv1 e (List.mem_cons_of_mem _
          (List.mem_cons_of_mem _ h)))
    · intro k hk
      by_cases hkw : k = winNum
      · subst hkw
        simp only [windowWidthSum, if_pos rfl, Option.getD_some, if_true]
        have := inv3
        simp only [windowWidthSum, if_pos rfl, Option.getD_some, if_true] at this
        omega
      · have hklt : k < winNum := by omega
        have h₁ : ¬ (winNum = k) := fun h => hkw h.symm
        have h₂ := inv2 k hklt
        simp only [windowWidthSum, if_neg h₁] at h₂ ⊢
        omega
    · apply windowWidthSum_eq_zero
      intro e he
      simp only [List.mem_cons] at he
      rcases he with h | h | h
      · subst h; simp
      · subst h; simp
      · have := inv1 e (List.mem_cons_of_mem _ (List.mem_cons_of_mem _ h))
        omega
    · intro e accRest' he
      simp only [List.cons.injEq] at he
      exact ⟨_, by rw [← he.1]⟩

theorem appendDone_sums (D sepD : Int) (colNum : Nat) (winNum1 : Nat) (winSize1 : Int)
    (acc1 acc2 : List ColEntry) (cw : Option Int)
    (hsums : ∀ k, windowWidthSum acc2 k = windowWidthSum acc1 k)
    (hinv : PackInv D sepD acc1 winNum1 winSize1) :
    ∀ k, k < winNum1 →
      windowWidthSum ((⟨winNum1, cw, .cell colNum⟩ :: acc2).reverse) k = D := by
  intro k hk
  rw [windowWidthSum_reverse, windowWidthSum, if_neg (by omega : ¬ winNum1 = k), hsums k]
  have := hinv.2.1 k hk
  omega

theorem appendCont_inv (D sepD : Int) (colNum : Nat) (w winSize1 : Int) (winNum1 : Nat)
    (acc1 acc2 : List ColEntry) (position : SepPosition)
    (hpos : position = .default ∨ position = .afterSelection)
    (hw : 0 ≤ w) (hsepD : 1 ≤ sepD)
    (hsums : ∀ k, windowWidthSum acc2 k = windowWidthSum acc1 k)
    (hmem : ∀ e ∈ acc2, e.winNum ≤ winNum1)
    (hinv : PackInv D sepD acc1 winNum1 winSize1) :
    PackInv D sepD
      (⟨winNum1, some sepD, .sep position⟩ :: ⟨winNum1, some w, .cell colNum⟩ :: acc2)
      winNum1 (winSize1 + w + sepD) := by
  obtain ⟨inv1, inv2, inv3, inv4, inv5, inv6⟩ := hinv
  refine ⟨?_, ?_, ?_, by omega, ?_, ?_⟩
  · intro e he
    simp only [List.mem_cons] at he
    rcases he with h | h | h
    · subst h; exact le_refl _
    · subst h; exact le_refl _
    · exact hmem e h
  · intro k hk
    rw [windowWidthSum, if_neg (by omega : ¬ winNum1 = k),
      windowWidthSum, if_neg (by omega : ¬ winNum1 = k), hsums k]
    have := inv2 k hk
    omega
  · rw [windowWidthSum, if_pos rfl, windowWidthSum, if_pos rfl, hsums winNum1]
    simp only [Option.getD_some]
    omega
  · intro _
    exact ⟨position, w, colNum, acc2, rfl, hpos⟩
  · intro e accRest he
    simp only [List.cons.injEq] at he
    exact ⟨position, by rw [← he.1]⟩

theorem appendCellPhase_spec (D sepD : Int) (sel : Option Nat) (colNum : Nat)
    (w : Int) (last : Bool) (acc1 : List ColEntry) (winNum1 : Nat) (winSize1 : Int)
    (hw : 0 ≤ w) (hsepD : 1 ≤ sepD)
    (hinv : PackInv D sepD acc1 winNum1 winSize1) :
    (last = true → ∃ cols,
        appendCellPhase sepD sel colNum (some w) last acc1 winNum1 winSize1
          = .done cols winNum1
        ∧ ∀ k, k < winNum1 → windowWidthSum cols k = D)
    ∧ (last = false → ∃ acc',
        appendCellPhase sepD sel colNum (some w) last acc1 winNum1 winSize1
          = .cont acc' winNum1 (winSize1 + w + sepD)
        ∧ PackInv D sepD acc' winNum1 (winSize1 + w + sepD)) := by
  by_cases hselc : some colNum = sel
  · cases acc1 with
    | nil =>
      constructor
      · intro hlast
        subst hlast
        refine ⟨((⟨winNum1, none, .cell colNum⟩ : ColEntry) :: []).reverse, ?_, ?_⟩
        · rw [← hselc]
          simp [appendCellPhase]
        · exact appendDone_sums D sepD colNum winNum1 winSize1 [] [] none
            (fun k => rfl) hinv
      · intro hlast
        subst hlast
        refine ⟨⟨winNum1, some sepD, .sep .afterSelection⟩
            :: ⟨winNum1, some w, .cell colNum⟩ :: [], ?_, ?_⟩
        · rw [← hselc]
          simp [appendCellPhase]
        · exact appendCont_inv D sepD colNum w winSize1 winNum1 [] []
            .afterSelection (Or.inr rfl) hw hsepD (fun k => rfl)
            (by intro e he; cases he) hinv
    | cons e accRest =>
      obtain ⟨p, hp⟩ := hinv.2.2.2.2.2 e accRest rfl
      have hsums : ∀ k, windowWidthSum
          ((if p = SepPosition.default
            then (⟨e.winNum, e.width, .sep .beforeSelection⟩ : ColEntry) else e)
            :: accRest) k = windowWidthSum (e :: accRest) k := by
        intro k
        by_cases hd : p = SepPosition.default <;> simp [hd, windowWidthSum]
      have hmem : ∀ x ∈ ((if p = SepPosition.default
            then (⟨e.winNum, e.width, .sep .beforeSelection⟩ : ColEntry) else e)
            :: accRest), x.winNum ≤ winNum1 := by
        intro x hx
        simp only [List.mem_cons] at hx
        rcases hx with h | h
        · subst h
          by_cases hd : p = SepPosition.default
          · simp only [if_pos hd]
            exact hinv.1 e (List.mem_cons_self e accRest)
          · simp only [if_neg hd]
            exact hinv.1 e (List.mem_cons_self e accRest)
        · exact hinv.1 x (List.mem_cons_of_mem e h)
      constructor
      · intro hlast
        subst hlast
        refine ⟨((⟨winNum1, none, .cell colNum⟩ : ColEntry)
            :: (if p = SepPosition.default
                then (⟨e.winNum, e.width, .sep .beforeSelection⟩ : ColEntry) else e)
            :: accRest).reverse, ?_, ?_⟩
        · rw [← hselc]
          simp only [appendCellPhase]
          simp [hp]
        · exact appendDone_sums D sepD colNum winNum1 winSize1 (e :: accRest) _ none
            hsums hinv
      · intro hlast
        subst hlast
        refine ⟨⟨winNum1, some sepD, .sep .afterSelection⟩
            :: ⟨winNum1, some w, .cell colNum⟩
            :: (if p = SepPosition.default
                then (⟨e.winNum, e.width, .sep .beforeSelection⟩ : ColEntry) else e)
            :: accRest, ?_, ?_⟩
        · rw [← hselc]
          simp only [appendCellPhase]
          simp [hp]
        · exact appendCont_inv D sepD colNum w winSize1 winNum1 (e :: accRest) _
            .afterSelection (Or.inr rfl) hw hsepD hsums hmem hinv
  · constructor
    · intro hlast
      subst hlast
      refine ⟨((⟨winNum1, none, .cell colNum⟩ : ColEntry) :: acc1).reverse, ?_, ?_⟩
      · simp [appendCellPhase, hselc]
      · exact appendDone_sums D sepD colNum winNum1 winSize1 acc1 acc1 none
          (fun k => rfl) hinv
    · intro hlast
      subst hlast
      refine ⟨⟨winNum1, some sepD, .sep .default⟩
          :: ⟨winNum1, some w, .cell colNum⟩ :: acc1, ?_, ?_⟩
      · simp [appendCellPhase, hselc]
      · exact appendCont_inv D sepD colNum w winSize1 winNum1 acc1 acc1
          .default (Or.inl rfl) hw hsepD (fun k => rfl)
          (fun e he => hinv.1 e he) hinv

theorem getColumnsStep_spec (D sepD sepE : Int) (sel : Option Nat) (colNum : Nat)
    (w : Int) (last : Bool) (acc : List ColEntry) (winNum : Nat) (winSize : Int)
    (hw : 0 ≤ w) (hsepD : 1 ≤ sepD)
    (hinv : PackInv D sepD acc winNum winSize) :
    (last = true → ∃ cols maxW,
        getColumnsStep D sepD sepE sel colNum (some w) last acc winNum winSize
          = .done cols maxW
        ∧ winNum ≤ maxW
        ∧ ∀ k, k < maxW → windowWidthSum cols k = D)
    ∧ (last = false → ∃ acc' winNum' winSize',
        getColumnsStep D sepD sepE sel colNum (some w) last acc winNum winSize
          = .cont acc' winNum' winSize'
        ∧ winNum ≤ winNum'
        ∧ PackInv D sepD acc' winNum' winSize') := by
  by_cases hC : fitsCond D sepE winSize (some w) last ∨ winSize = 0
    ∨ (some w : Option Int) = none
  · have hstep : getColumnsStep D sepD sepE sel colNum (some w) last acc winNum winSize
        = appendCellPhase sepD sel colNum (some w) last acc winNum winSize := by
      simp only [getColumnsStep, if_pos hC]
    obtain ⟨hdone, hcont⟩ := appendCellPhase_spec D sepD sel colNum w last acc winNum
      winSize hw hsepD hinv
    constructor
    · intro hlast
      obtain ⟨cols, heq, hsums⟩ := hdone hlast
      exact ⟨cols, winNum, hstep ▸ heq, le_refl winNum, hsums⟩
    · intro hlast
      obtain ⟨acc', heq, hinv'⟩ := hcont hlast
      exact ⟨acc', winNum, winSize + w + sepD, hstep ▸ heq, le_refl winNum, hinv'⟩
  · have hnz : winSize ≠ 0 := by
      intro h0
      exact hC (Or.inr (Or.inl h0))
    obtain ⟨acc₁, hclose, hinv₁⟩ := closeWindow_spec D sepD sepE acc winNum winSize
      hinv hnz
    have hstep : getColumnsStep D sepD sepE sel colNum (some w) last acc winNum winSize
        = appendCellPhase sepD sel colNum (some w) last acc₁ (winNum + 1) 0 := by
      simp only [getColumnsStep, if_neg hC, hclose]
    obtain ⟨hdone, hcont⟩ := appendCellPhase_spec D sepD sel colNum w last acc₁
      (winNum + 1) 0 hw hsepD hinv₁
    constructor
    · intro hlast
      obtain ⟨cols, heq, hsums⟩ := hdone hlast
      exact ⟨cols, winNum + 1, hstep ▸ heq, Nat.le_succ winNum, hsums⟩
    · intro hlast
      obtain ⟨acc', heq, hinv'⟩ := hcont hlast
      exact ⟨acc', winNum + 1, 0 + w + sepD, hstep ▸ heq, Nat.le_succ winNum, hinv'⟩

theorem getColumnsLoop_nil (D sepD sepE : Int) (sel : Option Nat)
    (acc : List ColEntry) (winNum : Nat) (winSize : Int) :
    getColumnsLoop D sepD sepE sel [] acc winNum winSize = .ok (acc.reverse, winNum) :=
  rfl

theorem getColumnsLoop_cons (D sepD sepE : Int) (sel : Option Nat) (colNum : Nat)
    (w0 : Option Int) (rest : List (Nat × Option Int)) (acc : List ColEntry)
    (winNum : Nat) (winSize : Int) :
    getColumnsLoop D sepD sepE sel ((colNum, w0) :: rest) acc winNum winSize
      = match getColumnsStep D sepD sepE sel colNum w0 rest.isEmpty acc winNum
          winSize with
        | .done cols maxW => .ok (cols, maxW)
        | .fail e => .error e
        | .cont acc' winNum' winSize' =>
          getColumnsLoop D sepD sepE sel rest acc' winNum' winSize' := rfl

theorem getColumnsLoop_spec (D sepD sepE : Int) (sel : Option Nat) (hsepD : 1 ≤ sepD) :
    ∀ (cells : List (Nat × Option Int)) (acc : List ColEntry) (winNum : Nat)
      (winSize : Int),
    (∀ c ∈ cells, ∃ w, c.2 = some w ∧ 0 ≤ w) →
    PackInv D sepD acc winNum winSize →
    ∃ cols maxW,
      getColumnsLoop D sepD sepE sel cells acc winNum winSize = .ok (cols, maxW)
      ∧ winNum ≤ maxW
      ∧ ∀ k, k < maxW → windowWidthSum cols k = D := by
  intro cells
  induction cells with
  | nil =>
    intro acc winNum winSize _ hinv
    refine ⟨acc.reverse, winNum, getColumnsLoop_nil D sepD sepE sel acc winNum winSize,
      le_refl winNum, fun k hk => ?_⟩
    rw [windowWidthSum_reverse]
    exact hinv.2.1 k hk
  | cons c rest ih =>
    intro acc winNum winSize hcells hinv
    obtain ⟨colNum, w0⟩ := c
    obtain ⟨w, hw0, hw⟩ := hcells (colNum, w0) (List.mem_cons_self _ rest)
    simp only at hw0
    subst hw0
    rw [getColumnsLoop_cons]
    cases hrest : rest.isEmpty with
    | true =>
      obtain ⟨cols, maxW, heq, hle, hsums⟩ :=
        (getColumnsStep_spec D sepD sepE sel colNum w true acc winNum winSize hw
          hsepD hinv).1 rfl
      rw [heq]
      exact ⟨cols, maxW, rfl, hle, hsums⟩
    | false =>
      obtain ⟨acc', winNum', winSize', heq, hle, hinv'⟩ :=
        (getColumnsStep_spec D sepD sepE sel colNum w false acc winNum winSize hw
          hsepD hinv).2 rfl
      rw [heq]
      obtain ⟨cols, maxW, heq', hle', hsums⟩ := ih acc' winNum' winSize'
        (fun c hc => hcells c (List.mem_cons_of_mem _ hc)) hinv'
      exact ⟨cols, maxW, heq', le_trans hle hle', hsums⟩

/-- C1, counterexample.  The claim bounds every window's total width by
the display width `D` for *every* sequence of cell braille widths.  With
`D = 10`, separator widths 1/1, a 15-wide first cell and an
unbounded-width (`None`) last cell, the oversized cell is admitted into
the empty window at full width and no later cell ever closes that window
(the last cell's `None` width short-circuits the close-window test), so
window 0 carries defined widths summing to 16 > 10. -/
theorem getColumns_window_overflow_counterexample :
    getColumns 10 1 1 none [(1, some 15), (2, none)]
      = .ok ([⟨0, some 15, .cell 1⟩, ⟨0, some 1, .sep .default⟩, ⟨0, none, .cell 2⟩], 0)
    ∧ windowWidthSum
        [⟨0, some 15, .cell 1⟩, ⟨0, some 1, .sep .default⟩, ⟨0, none, .cell 2⟩] 0
      = 16
    ∧ ¬ (16 : Int) ≤ 10 := by
  refine ⟨rfl, by decide, by decide⟩

/-- C1, amended: for every row of *fixed-width* cells (any non-negative
widths; an unbounded-width cell that is not last crashes — see C3 — and
an unbounded last cell after an oversized cell overflows — see the
counterexample), `getColumns` succeeds and every window below
`maxWindowNumber` (exactly the windows closed because the next cell did
not fit) has total width exactly `D`: the close-window branch shrinks the
trailing separator to its end-of-window width and retroactively expands
the previous column so the closing window is exactly filled with no
trailing dead space.  `sepD` is the default separator width (≥ 1 in every
separator scheme). -/
theorem getColumns_closed_windows_exactly_fill (D sepD sepE : Int) (sel : Option Nat)
    (cells : List (Nat × Option Int)) (hsepD : 1 ≤ sepD)
    (hcells : ∀ c ∈ cells, ∃ w, c.2 = some w ∧ 0 ≤ w) :
    ∃ cols maxW, getColumns D sepD sepE sel cells = .ok (cols, maxW)
      ∧ ∀ k, k < maxW → windowWidthSum cols k = D := by
  have hinv : PackInv D sepD [] 0 0 := by
    refine ⟨fun e he => absurd he (List.not_mem_nil e), fun k hk => absurd hk (by omega),
      rfl, le_refl 0, fun h0 => absurd rfl h0, fun e accRest he => ?_⟩
    cases he
  obtain ⟨cols, maxW, heq, _, hsums⟩ := getColumnsLoop_spec D sepD sepE sel hsepD
    cells [] 0 0 hcells hinv
  exact ⟨cols, maxW, heq, hsums⟩

/-- C1, witness: the spec's example scenario — display width 15, three
cells of width 6, separator widths 1/1 — packs window 0 to exactly 15. -/
theorem getColumns_closed_windows_exactly_fill_witness :
    ∃ cols maxW, getColumns 15 1 1 none [(1, some 6), (2, some 6), (3, some 6)]
      = .ok (cols, maxW)
      ∧ ∀ k, k < maxW → windowWidthSum cols k = 15 :=
  getColumns_closed_windows_exactly_fill 15 1 1 none
    [(1, some 6), (2, some 6), (3, some 6)] (by decide)
    (by
      intro c hc
      simp only [List.mem_cons] at hc
      rcases hc with h | h | h | h
      · exact ⟨6, by rw [h], by decide⟩
      · exact ⟨6, by rw [h], by decide⟩
      · exact ⟨6, by rw [h], by decide⟩
      · cases h)

/-- C3: a cell with unbounded braille width (`columnWidthBraille is
None`) that is not the last cell of the row makes `getColumns` raise
instead of completing: line 408 reads the undefined name
`colSepWidthAtEoW` (the local is `sepWidthAtEoW`), a `NameError`, reached
when the unbounded cell opens a window; and when the unbounded cell
follows other cells in a non-empty window, the `assert winSize == 0` of
line 407 fails first, because the close-window test (line 373-377)
short-circuits on `cellWidth is None` and never closes the window.  The
claim's described behaviour (give the cell the display width minus the
end-of-window separator width and continue in a new window) is exactly
what the two dead lines 408-409 would compute. -/
theorem getColumns_unbounded_nonlast_raises :
    getColumns 12 1 1 none [(1, none), (2, some 4)]
      = .error .nameErrorSepWidth
    ∧ getColumns 12 1 1 none [(1, some 3), (2, none), (3, some 3)]
      = .error .assertWinSizeZero := by
  refine ⟨rfl, rfl⟩
